import Mathlib

/-!
Verification development for the Content Optimization & Scheduling Engine:
a shallow embedding of the SEO optimization service, the content calendar
service and the performance analytics service, together with proofs of the
behavioural properties stated in the design document.

Numeric conventions: JavaScript numbers are embedded as `ℚ` (all the
arithmetic performed by the embedded functions is exact decimal/rational
arithmetic, so `ℚ` is faithful); `Math.round` is `round : ℚ → ℤ`
(both round half toward positive infinity); `Math.min`/`Math.max` are
`min`/`max`.  Strings are Lean `String`s; regex-based splitting is embedded
by explicit recursion over the character list with JavaScript `split`
semantics.  `Promise` failure of the pluggable external provider is embedded
by passing the provider outcome as an `Option` argument: `some` is a
resolved call, `none` is any rejection (thrown error, timeout, transport
failure).
-/

/-- JavaScript `s.split(regex)` where the regex matches a nonempty run of
separator characters (e.g. `/\s+/` or `/[.!?]+/`): maximal runs of
characters satisfying `p` act as one delimiter, and empty fragments at the
boundaries are kept (`"".split` gives `[""]`, `" a".split(/\s+/)` gives
`["", "a"]`). -/
def jsSplitList (p : Char → Bool) : List Char → List (List Char)
  | [] => [[]]
  | c :: rest =>
    if p c then
      match rest with
      | [] => [[], []]
      | c2 :: _ =>
        if p c2 then jsSplitList p rest
        else [] :: jsSplitList p rest
    else
      match jsSplitList p rest with
      | [] => [[c]]
      | t :: ts => (c :: t) :: ts

/-- String wrapper for `jsSplitList`. -/
def jsSplit (p : Char → Bool) (s : String) : List String :=
  (jsSplitList p s.data).map (fun t => String.mk t)

/-- Decidable list-prefix test (used to embed substring containment). -/
def isPrefixList : List Char → List Char → Bool
  | [], _ => true
  | _ :: _, [] => false
  | a :: as, b :: bs => a == b && isPrefixList as bs

/-- Substring containment on character lists; embeds `String.includes`. -/
def containsSub (needle : List Char) : List Char → Bool
  | [] => isPrefixList needle []
  | c :: t => isPrefixList needle (c :: t) || containsSub needle t

/-- JavaScript `hay.includes(needle)`. -/
def strIncludes (hay needle : String) : Bool :=
  containsSub needle.data hay.data

/-- JavaScript `s.toLowerCase()`, character by character. -/
def strToLower (s : String) : String :=
  String.mk (s.data.map Char.toLower)

/-- JavaScript `s.trim()` on the character list: strip leading and trailing
whitespace. -/
def trimChars (cs : List Char) : List Char :=
  ((cs.dropWhile Char.isWhitespace).reverse.dropWhile Char.isWhitespace).reverse

/-- JavaScript `s.split(sep)` for a single-character separator: split at
every occurrence, keeping empty fragments. -/
def splitAtChar (sep : Char) : List Char → List (List Char)
  | [] => [[]]
  | c :: rest =>
    match splitAtChar sep rest with
    | [] => [[]]
    | l :: ls => if c = sep then [] :: l :: ls else (c :: l) :: ls

/-- From `seo-optimization.service.ts` `calculateKeywordDensity`:
lowercase the content, split on whitespace runs, count tokens containing
the lowercased keyword as a substring, density = count/total×100, capped
at 3 by `Math.min`. -/
def calculateKeywordDensity (content keyword : String) : ℚ :=
  let words := jsSplit Char.isWhitespace (strToLower content)
  let keywordLower := strToLower keyword
  let keywordCount := (words.filter (fun w => strIncludes w keywordLower)).length
  let density : ℚ := ((keywordCount : ℚ) / (words.length : ℚ)) * 100
  min density 3

/-- ASCII lowercase letter test, embedding the regex class `[a-z]`. -/
def isLowerAlpha (c : Char) : Bool :=
  decide ('a' ≤ c ∧ c ≤ 'z')

/-- Vowel-letter test, embedding the regex class `[aeiou]`. -/
def isVowel (c : Char) : Bool :=
  c == 'a' || c == 'e' || c == 'i' || c == 'o' || c == 'u'

/-- From `estimateSyllables`: lowercase the word, strip every character
outside `[a-z]`, count the vowel letters, floor the result at 1. -/
def estimateSyllables (word : String) : ℕ :=
  let cleaned := (strToLower word).data.filter isLowerAlpha
  max 1 (cleaned.countP (fun c => isVowel c = true))

/-- From `countSyllables`: sum of per-word syllable estimates over the
whitespace-split words of the text. -/
def countSyllables (text : String) : ℕ :=
  ((jsSplit Char.isWhitespace text).map estimateSyllables).sum

/-- Sentence separator class, embedding the regex `[.!?]+` split. -/
def isSentenceSep (c : Char) : Bool :=
  c == '.' || c == '!' || c == '?'

/-- From `calculateReadabilityScore`: Flesch-Kincaid-style score.
Sentences are the `[.!?]+`-split fragments with nonempty trim; words are
the whitespace split; grade = 0.39·(words/sentences) + 11.8·(syllables/words)
− 15.59; result clamped to [0,100]; 0 when there is no sentence or word. -/
def calculateReadabilityScore (content : String) : ℚ :=
  let sentences := (jsSplit isSentenceSep content).filter (fun s => !(trimChars s.data).isEmpty)
  let words := jsSplit Char.isWhitespace content
  let syllables := countSyllables content
  if sentences.length = 0 ∨ words.length = 0 then 0
  else
    let grade : ℚ :=
      (39 / 100) * ((words.length : ℚ) / (sentences.length : ℚ)) +
      (118 / 10) * ((syllables : ℚ) / (words.length : ℚ)) - 1559 / 100
    max 0 (min 100 (100 - grade * 5))

/-- Number of matches of the global regex `/##\s/g`: scan left to right;
at each position a marker pair followed by a whitespace character counts as
one match and the scan resumes after it, otherwise the scan advances one
character. -/
def countH2 : List Char → ℕ
  | a :: b :: c :: rest =>
    if a == '#' && b == '#' && c.isWhitespace then countH2 rest + 1
    else countH2 (b :: c :: rest)
  | _ => 0

/-- From `checkHeadingStructure`: `(content.match(/##\s/g) || []).length >= 2`. -/
def checkHeadingStructure (content : String) : Bool :=
  decide (2 ≤ countH2 content.data)

/-- A recommendation message.  The source builds plain interpolated strings;
the constructors carry the interpolated data instead so that list identity
and length are preserved without embedding number formatting.  `external`
is a recommendation string coming from the external provider. -/
inductive Recommendation where
  | increaseDensity (density : ℚ)
  | reduceStuffing (density : ℚ)
  | improveReadability
  | addHeadingStructure
  | expandContent (wordCount : ℕ)
  | external (message : String)
deriving DecidableEq

/-- Result of the external provider `analyzeContent` call
(`SEOContentAnalysis` in `seo-provider.interface.ts`). -/
structure ExternalAnalysis where
  score : ℚ
  keywordDensity : ℚ
  readability : ℚ
  recommendations : List Recommendation
  competitorUrls : List String
deriving DecidableEq

/-- The `SEOAnalysis` record returned by the orchestrator. -/
structure SEOAnalysis where
  keyword : String
  score : ℤ
  recommendations : List Recommendation
  readabilityScore : ℚ
  keywordDensity : ℚ
  headingStructure : Bool
  externalData : Option ExternalAnalysis
deriving DecidableEq

/-- From `generateRecommendations`: the ordered rule list (density low,
density high, readability, heading, word count), keeping exactly the
triggered messages in that order. -/
def generateRecommendations (keywordDensity readabilityScore : ℚ)
    (headingStructure : Bool) (content : String) : List Recommendation :=
  (if keywordDensity < 1/2 then [Recommendation.increaseDensity keywordDensity] else []) ++
  (if 3 < keywordDensity then [Recommendation.reduceStuffing keywordDensity] else []) ++
  (if readabilityScore < 60 then [Recommendation.improveReadability] else []) ++
  (if headingStructure = false then [Recommendation.addHeadingStructure] else []) ++
  (if (jsSplit Char.isWhitespace content).length < 300 then
    [Recommendation.expandContent (jsSplit Char.isWhitespace content).length] else [])

/-- From `calculateSEOScore`: sequential accumulation of the four buckets
(density 25/10, readability proportional, heading 25/10, recommendation
penalty 5 per entry floored at 0), rounded at the end. -/
def calculateSEOScore (keywordDensity readabilityScore : ℚ)
    (headingStructure : Bool) (recommendations : List Recommendation) : ℤ :=
  let score : ℚ := 0
  let score := score + (if 1/2 < keywordDensity ∧ keywordDensity < 3 then 25 else 10)
  let score := score + readabilityScore / 100 * 25
  let score := score + (if headingStructure then 25 else 10)
  let recommendationPenalty : ℚ := (recommendations.length : ℚ) * 5
  let score := score + max 0 (25 - recommendationPenalty)
  round score

/-- From the orchestrator `analyzeContent`: local analysis always runs; on a
resolved external call the external recommendations are prepended to the
local ones and the external data is surfaced; on a rejected call (`none`)
the catch block falls back to the local-only analysis.  The `title`
parameter is unused by the source (`_title`).  Totality of this function is
the embedding of the no-throw contract. -/
def analyzeContent (content keyword _title : String)
    (externalAnalysis : Option ExternalAnalysis) : SEOAnalysis :=
  let keywordDensity := calculateKeywordDensity content keyword
  let readabilityScore := calculateReadabilityScore content
  let headingStructure := checkHeadingStructure content
  match externalAnalysis with
  | some ext =>
    let recommendations :=
      ext.recommendations ++ generateRecommendations keywordDensity readabilityScore headingStructure content
    { keyword := keyword
      score := calculateSEOScore keywordDensity readabilityScore headingStructure recommendations
      recommendations := recommendations
      readabilityScore := readabilityScore
      keywordDensity := keywordDensity
      headingStructure := headingStructure
      externalData := some ext }
  | none =>
    let recommendations := generateRecommendations keywordDensity readabilityScore headingStructure content
    { keyword := keyword
      score := calculateSEOScore keywordDensity readabilityScore headingStructure recommendations
      recommendations := recommendations
      readabilityScore := readabilityScore
      keywordDensity := keywordDensity
      headingStructure := headingStructure
      externalData := none }

/-- The mock analysis returned by the SERPAPI provider in
`serpapi.provider.ts` (3 recommendations, 2 competitor URLs). -/
def mockExternalAnalysis : ExternalAnalysis :=
  { score := 75
    keywordDensity := 3/2
    readability := 68
    recommendations :=
      [Recommendation.external (r"Add more subheadings"),
       Recommendation.external (r"Include keyword in first paragraph"),
       Recommendation.external (r"Add internal links")]
    competitorUrls :=
      [r"https://example.com/competitor1", r"https://example.com/competitor2"] }

/-- Modelled from the spec text of the composite scorer: one `round` of the
sum of the four bucket values, with the recommendation penalty written as
`max(0, 25 − 5 × numberOfRecommendations)`.  Used to compare the code path
against the specified formula. -/
def specCompositeScore (density readability : ℚ) (heading : Bool)
    (numberOfRecommendations : ℕ) : ℤ :=
  round ((if 1/2 < density ∧ density < 3 then (25 : ℚ) else 10) +
    readability / 100 * 25 +
    (if heading then (25 : ℚ) else 10) +
    max 0 (25 - 5 * (numberOfRecommendations : ℚ)))

/-- From `performance-analytics.service.ts` `calculateEngagementScore`:
each counter defaults to 0 when absent, every per-view rate is guarded by
`views > 0`, and the weighted sum is rounded then capped at 100. -/
def calculateEngagementScore (views clicks shares comments : Option ℕ)
    (conversionRate : Option ℚ) : ℤ :=
  let views := views.getD 0
  let clicks := clicks.getD 0
  let shares := shares.getD 0
  let comments := comments.getD 0
  let conversionRate := conversionRate.getD 0
  let clickRate : ℚ := if 0 < views then ((clicks : ℚ) / (views : ℚ)) * 100 else 0
  let shareRate : ℚ := if 0 < views then ((shares : ℚ) / (views : ℚ)) * 100 else 0
  let commentRate : ℚ := if 0 < views then ((comments : ℚ) / (views : ℚ)) * 100 else 0
  let score := clickRate * (3/10) + shareRate * (3/10) + commentRate * (2/10) +
    conversionRate * 100 * (2/10)
  min 100 (round score)

/-- Modelled from the spec text of the engagement aggregator: the same
formula written as one expression over plain (present) counters. -/
def specEngagementScore (views clicks shares comments : ℕ) (conversionRate : ℚ) : ℤ :=
  min 100 (round (
    (if 0 < views then ((clicks : ℚ) / (views : ℚ)) * 100 else 0) * (3/10) +
    (if 0 < views then ((shares : ℚ) / (views : ℚ)) * 100 else 0) * (3/10) +
    (if 0 < views then ((comments : ℚ) / (views : ℚ)) * 100 else 0) * (2/10) +
    conversionRate * 100 * (2/10)))

/-- A historical blog post record as consumed by the keyword ranker
(`content-calendar.service.ts`).  `content_keywords` is the raw
comma-separated field (`none` for a missing or non-string field);
`engagement_score` is `none` when the field is absent. -/
structure HistoricalPost where
  content_keywords : Option String
  engagement_score : Option ℚ

/-- JavaScript `(post.engagement_score as number) || 1`: the default 1 is
taken both when the field is absent and when the stored value is the falsy
number 0. -/
def engagementWeight (engagement_score : Option ℚ) : ℚ :=
  match engagement_score with
  | none => 1
  | some v => if v = 0 then 1 else v

/-- The guard `post.content_keywords && typeof ... === 'string'` followed by
`.split(',').map(trim)`: a missing field or the falsy empty string skips the
post, otherwise the comma-split trimmed keyword list is processed. -/
def postKeywords (post : HistoricalPost) : Option (List String) :=
  match post.content_keywords with
  | none => none
  | some s =>
    if s.data.isEmpty then none
    else some ((splitAtChar ',' s.data).map (fun cs => String.mk (trimChars cs)))

/-- JavaScript `map.set(k, (map.get(k) || 0) + w)` on an insertion-ordered
map, embedded as an association list: an existing key is updated in place
(keeping its first-seen position), a new key is appended. -/
def addWeight : List (String × ℚ) → String → ℚ → List (String × ℚ)
  | [], key, w => [(key, w)]
  | (k, v) :: rest, key, w =>
    if k = key then (k, v + w) :: rest else (k, v) :: addWeight rest key w

/-- The keyword-weight accumulation loop of `getTopKeywordsFromHistory`:
for each qualifying post, add its engagement weight to the total of every
keyword it lists. -/
def buildKeywordMap (posts : List HistoricalPost) : List (String × ℚ) :=
  posts.foldl (fun m post =>
    match postKeywords post with
    | none => m
    | some keywords =>
      keywords.foldl
        (fun m keyword => addWeight m keyword (engagementWeight post.engagement_score)) m) []

/-- An entry of the ranking under sort: original position in the map
iteration order, keyword, aggregate weight. -/
abbrev RankedEntry := ℕ × String × ℚ

/-- One step of the stable descending insertion: an element passes every
strictly heavier entry and stops in front of the first entry that is not
strictly heavier, so equal weights keep their original relative order. -/
def insertRanked (x : RankedEntry) : List RankedEntry → List RankedEntry
  | [] => [x]
  | y :: ys => if x.2.2 < y.2.2 then y :: insertRanked x ys else x :: y :: ys

/-- Stable sort by descending weight.  JavaScript
`.sort((a, b) => b[1] - a[1])` is a stable sort (ES2019); stability is made
explicit by sorting position-tagged entries. -/
def sortRanked : List RankedEntry → List RankedEntry
  | [] => []
  | x :: xs => insertRanked x (sortRanked xs)

/-- The ranked (position-tagged) keyword entries of a post history. -/
def rankedEntries (posts : List HistoricalPost) : List RankedEntry :=
  sortRanked (buildKeywordMap posts).enum

/-- From `getDefaultKeywords`: the fixed default keyword list. -/
def getDefaultKeywords : List String :=
  [r"sales automation", r"lead generation", r"AI content marketing",
   r"SEO optimization", r"social media automation"]

/-- From `getTopKeywordsFromHistory`: the fetch outcome is passed in
(`some posts` — `getDocumentList` resolved, `none` — it threw, which is the
only path reaching the catch block).  On success the top 20 ranked keywords
are returned; the catch block returns the default keywords. -/
def getTopKeywordsFromHistory (fetched : Option (List HistoricalPost)) : List String :=
  match fetched with
  | none => getDefaultKeywords
  | some recentPosts => ((rankedEntries recentPosts).take 20).map (fun e => e.2.1)

/-- Modelled from the spec: the aggregation weight as the spec words it,
"the post's engagementScore (default 1 if absent)" — 1 only when the field
is absent. -/
def specEngagementWeight (engagement_score : Option ℚ) : ℚ :=
  engagement_score.getD 1

/-- Modelled from the spec: keyword totals computed with the spec's weight
(default 1 only when absent); used to compare the claimed ordering against
the code's ordering. -/
def specKeywordTotals (posts : List HistoricalPost) : List (String × ℚ) :=
  posts.foldl (fun m post =>
    match postKeywords post with
    | none => m
    | some keywords =>
      keywords.foldl
        (fun m keyword => addWeight m keyword (specEngagementWeight post.engagement_score)) m) []

/-- Total weight of a keyword in an accumulated map (0 when missing). -/
def lookupWeight (m : List (String × ℚ)) (key : String) : ℚ :=
  ((m.find? (fun e => e.1 == key)).map (fun e => e.2)).getD 0

/-- Target platform of a content item. -/
inductive Platform where
  | blog
  | linkedin
  | facebook
  | instagram
deriving DecidableEq

/-- Lifecycle state of a content item. -/
inductive ContentStatus where
  | scheduled
  | draft
  | seo_optimized
  | published
deriving DecidableEq

/-- A calendar date as assembled by `new Date(year, month - 1, day)`
(year/month/day fields; month is 1-based here).  Note JavaScript maps a
year argument in [0, 99] to 1900+year, so the calendar theorems assume
`100 ≤ year`. -/
structure ScheduleDate where
  year : ℕ
  month : ℕ
  day : ℕ
deriving DecidableEq

/-- The `ContentItem` schedule unit.  The source also assigns
`id: uuidv4()`, an externally random opaque token that no verified property
mentions; it is left out of the embedding. -/
structure ContentItem where
  title : String
  description : String
  keywords : List String
  publishDate : Option ScheduleDate
  platform : Platform
  status : ContentStatus
deriving DecidableEq

/-- A content idea as built by `generateContentIdeas` (a plain object of
type `any` in the source, every field possibly absent downstream). -/
structure ContentIdea where
  keyword : Option String
  title : Option String
  description : Option String
  platforms : Option (List Platform)
  contentType : Option String
deriving DecidableEq

/-- The fixed content-type rotation of `generateContentIdeas`. -/
def contentTypes : List String :=
  [r"How-to Guide", r"Case Study", r"Tips & Tricks", r"Industry News",
   r"Best Practices"]

/-- From `generateContentIdeas`: one idea per keyword, titles rotating
round-robin through `contentTypes`, platforms fixed to blog + linkedin. -/
def generateContentIdeas (keywords : List String) : List ContentIdea :=
  keywords.enum.map (fun p =>
    { keyword := some p.2
      title := some ((contentTypes.getD (p.1 % contentTypes.length) (r"")) ++ (r": ") ++ p.2)
      description := some ((r"Comprehensive guide about ") ++ p.2)
      platforms := some [Platform.blog, Platform.linkedin]
      contentType := some (contentTypes.getD (p.1 % contentTypes.length) (r"")) })

/-- Gregorian leap-year rule, as implemented by the JavaScript `Date`. -/
def isLeapYear (year : ℕ) : Bool :=
  (year % 4 == 0 && year % 100 != 0) || year % 400 == 0

/-- Number of days of a (1-based) month, i.e.
`new Date(year, month, 0).getDate()` for month in [1, 12]. -/
def daysInMonth (year month : ℕ) : ℕ :=
  match month with
  | 1 => 31
  | 2 => if isLeapYear year then 29 else 28
  | 3 => 31
  | 4 => 30
  | 5 => 31
  | 6 => 30
  | 7 => 31
  | 8 => 31
  | 9 => 30
  | 10 => 31
  | 11 => 30
  | 12 => 31
  | _ => 0

/-- Days from 0000-01-01 to the start of the given year (proleptic
Gregorian): 365 per year plus one per leap year strictly before it. -/
def daysBeforeYear (year : ℕ) : ℕ :=
  365 * year + (year + 3) / 4 + (year + 399) / 400 - (year + 99) / 100

/-- Days from the start of the year to the start of the given month. -/
def daysBeforeMonth (year month : ℕ) : ℕ :=
  ((List.range' 1 (month - 1)).map (daysInMonth year)).sum

/-- JavaScript `new Date(year, month - 1, day).getDay()`: 0 = Sunday.
0000-01-01 of the proleptic Gregorian calendar is a Saturday (offset 6);
sanity theorems against known dates are below. -/
def dayOfWeek (year month day : ℕ) : ℕ :=
  (daysBeforeYear year + daysBeforeMonth year month + (day - 1) + 6) % 7

/-- From `getOptimalPublishingDays`: the days of the month whose weekday is
Tuesday (2), Wednesday (3) or Thursday (4). -/
def getOptimalPublishingDays (month year : ℕ) : List ℕ :=
  (List.range' 1 (daysInMonth year month)).filter (fun day =>
    decide (2 ≤ dayOfWeek year month day) && decide (dayOfWeek year month day ≤ 4))

/-- The inner platform loop of `createPublishingSchedule`: one item per
platform (`idea.platforms || ['blog']`; note an empty array would be truthy
in the source, so the default applies only to an absent field), all sharing
the idea's publish date and starting as `scheduled`. -/
def itemsForIdea (idea : ContentIdea) (publishDate : Option ScheduleDate) : List ContentItem :=
  ((idea.platforms).getD [Platform.blog]).map (fun platform =>
    { title := (idea.title).getD (r"")
      description := (idea.description).getD (r"")
      keywords := [(idea.keyword).getD (r"")]
      publishDate := publishDate
      platform := platform
      status := ContentStatus.scheduled })

/-- From `createPublishingSchedule`: `ideas.forEach((idea, index))` — the
publish day is `publishingDays[index % publishingDays.length]` where
`index` is the position of the idea in the idea list; the date is computed
once per idea, before the platform loop.  An out-of-range lookup (empty
optimal-day list) is `none`, matching the invalid date JavaScript would
build from `undefined`. -/
def createPublishingSchedule (ideas : List ContentIdea) (month year : ℕ) : List ContentItem :=
  let publishingDays := getOptimalPublishingDays month year
  (ideas.enum).flatMap (fun p =>
    itemsForIdea p.2 ((publishingDays.get? (p.1 % publishingDays.length)).map
      (fun d => ⟨year, month, d⟩)))

/-- There is a marker-pair-plus-whitespace match starting at position `i`
of the character list (the declarative counterpart of one `/##\s/` match). -/
def patAt (cs : List Char) (i : ℕ) : Prop :=
  ∃ c rest, cs.drop i = '#' :: '#' :: c :: rest ∧ c.isWhitespace = true

/-- Split a character list at every newline (JavaScript line structure). -/
def splitLines : List Char → List (List Char)
  | [] => [[]]
  | c :: rest =>
    match splitLines rest with
    | [] => [[]]
    | l :: ls => if c = '\n' then [] :: l :: ls else (c :: l) :: ls

/-- Modelled from the spec: the number of independent second-level heading
lines — lines starting with exactly two marker characters followed by a
space. -/
def specHeadingLineCount (s : String) : ℕ :=
  (splitLines s.data).countP (fun line => isPrefixList ['#', '#', ' '] line)

/-- The strict order in which ranked entries must appear: strictly heavier
first, equal weights in first-seen (position) order. -/
def rankBefore (x y : RankedEntry) : Prop :=
  y.2.2 < x.2.2 ∨ (x.2.2 = y.2.2 ∧ x.1 < y.1)

theorem jsSplit_sanity : jsSplit Char.isWhitespace (r"a  b") = [r"a", r"b"] := by decide

theorem countH2_sanity : countH2 (String.data (r"x ## a ### b")) = 2 := by decide

theorem dayOfWeek_sanity :
    dayOfWeek 2000 1 1 = 6 ∧ dayOfWeek 2025 1 1 = 3 ∧ dayOfWeek 2025 10 11 = 6 ∧
    dayOfWeek 2024 2 29 = 4 ∧ dayOfWeek 1970 1 1 = 4 := by
  refine ⟨by decide, by decide, by decide, by decide, by decide⟩

/-- C1: for every draft text, keyword and title, and for every behaviour of
the external provider (`some` result of any shape, or `none` for a thrown
or timed-out call), the orchestrator `analyzeContent` is total and returns
an analysis whose `keywordDensity`, `readabilityScore` and
`headingStructure` are the locally computed values, and whose
`recommendations` on the failure path are exactly the local-only
recommendation list. -/
theorem analyzeContent_total_and_fallback :
    ∀ (content keyword title : String) (ext : Option ExternalAnalysis),
      (analyzeContent content keyword title ext).keywordDensity = calculateKeywordDensity content keyword ∧
      (analyzeContent content keyword title ext).readabilityScore = calculateReadabilityScore content ∧
      (analyzeContent content keyword title ext).headingStructure = checkHeadingStructure content ∧
      (analyzeContent content keyword title none).recommendations =
        generateRecommendations (calculateKeywordDensity content keyword)
          (calculateReadabilityScore content) (checkHeadingStructure content) content := by
  intro content keyword title ext
  cases ext <;> exact ⟨rfl, rfl, rfl, rfl⟩

/-- C3 (code evaluation at the failing input): a successful fetch with an
empty post history — and likewise a history whose posts have no keyword
field — makes the ranking step return the empty list, not the default
keyword list; only a thrown fetch reaches the default list, which has
length 5. -/
theorem rank_cold_start_returns_empty :
    getTopKeywordsFromHistory (some []) = [] ∧
    getTopKeywordsFromHistory (some [⟨none, some 50⟩]) = [] ∧
    getTopKeywordsFromHistory none = getDefaultKeywords ∧
    getDefaultKeywords.length = 5 :=
  ⟨rfl, rfl, rfl, rfl⟩

theorem round_lower_bound (q : ℚ) (h : 20 ≤ q) : 20 ≤ round q := by
  rw [round_eq, Int.le_floor]
  push_cast
  linarith

theorem round_upper_bound (q : ℚ) (h : q ≤ 100) : round q ≤ 100 := by
  have h101 : round q < 101 := by
    rw [round_eq, Int.floor_lt]
    push_cast
    linarith
  omega

theorem calculateSEOScore_lower (d r : ℚ) (hs : Bool) (recs : List Recommendation)
    (hr0 : 0 ≤ r) : 20 ≤ calculateSEOScore d r hs recs := by
  simp only [calculateSEOScore]
  apply round_lower_bound
  have hd : (10 : ℚ) ≤ (if 1/2 < d ∧ d < 3 then (25 : ℚ) else 10) := by split <;> norm_num
  have hh : (10 : ℚ) ≤ (if hs then (25 : ℚ) else 10) := by split <;> norm_num
  have hrr : (0 : ℚ) ≤ r / 100 * 25 := by positivity
  have hp : (0 : ℚ) ≤ max 0 (25 - (recs.length : ℚ) * 5) := le_max_left _ _
  linarith

theorem calculateSEOScore_upper (d r : ℚ) (hs : Bool) (recs : List Recommendation)
    (hr1 : r ≤ 100) : calculateSEOScore d r hs recs ≤ 100 := by
  simp only [calculateSEOScore]
  apply round_upper_bound
  have hd : (if 1/2 < d ∧ d < 3 then (25 : ℚ) else 10) ≤ 25 := by split <;> norm_num
  have hh : (if hs then (25 : ℚ) else 10) ≤ 25 := by split <;> norm_num
  have hrr : r / 100 * 25 ≤ 25 := by linarith
  have hlen : (0 : ℚ) ≤ (recs.length : ℚ) * 5 := by positivity
  have hp : max 0 (25 - (recs.length : ℚ) * 5) ≤ 25 := max_le (by norm_num) (by linarith)
  linarith

theorem calculateReadabilityScore_nonneg (content : String) :
    0 ≤ calculateReadabilityScore content := by
  simp only [calculateReadabilityScore]
  split
  · exact le_refl 0
  · exact le_max_left _ _

/-- C7: for every density ≥ 0, readability in [0,100], heading flag and
recommendation list, the composite score equals the rounded sum of the four
spec buckets, and without any separate clamping it lies in [0,100]. -/
theorem seo_composite_score_spec (d r : ℚ) (hs : Bool) (recs : List Recommendation)
    (hd : 0 ≤ d) (hr0 : 0 ≤ r) (hr1 : r ≤ 100) :
    calculateSEOScore d r hs recs = specCompositeScore d r hs recs.length ∧
    0 ≤ calculateSEOScore d r hs recs ∧ calculateSEOScore d r hs recs ≤ 100 := by
  refine ⟨?_, le_trans (by norm_num) (calculateSEOScore_lower d r hs recs hr0),
    calculateSEOScore_upper d r hs recs hr1⟩
  simp only [calculateSEOScore, specCompositeScore]
  congr 1
  rw [mul_comm ((recs.length : ℚ)) 5]
  ring

/-- Witness for C7 at a concrete input. -/
theorem seo_composite_score_spec_witness :
    calculateSEOScore 1 50 true [] = specCompositeScore 1 50 true ([] : List Recommendation).length ∧
    0 ≤ calculateSEOScore 1 50 true [] ∧ calculateSEOScore 1 50 true [] ≤ 100 :=
  seo_composite_score_spec 1 50 true [] (by norm_num) (by norm_num) (by norm_num)

/-- C10: the composite score has an implicit floor of 20 — the density and
heading buckets each contribute at least 10 and the other buckets are
non-negative — so the orchestrator can never report an overall score below
20 for any draft and any provider behaviour. -/
theorem seo_score_floor :
    (∀ (d r : ℚ) (hs : Bool) (recs : List Recommendation),
      0 ≤ r → 20 ≤ calculateSEOScore d r hs recs) ∧
    ∀ (content keyword title : String) (ext : Option ExternalAnalysis),
      20 ≤ (analyzeContent content keyword title ext).score := by
  constructor
  · intro d r hs recs hr
    exact calculateSEOScore_lower d r hs recs hr
  · intro content keyword title ext
    cases ext <;>
      exact calculateSEOScore_lower _ _ _ _ (calculateReadabilityScore_nonneg content)

/-- Witness for C10 at a concrete input. -/
theorem seo_score_floor_witness : 20 ≤ calculateSEOScore 0 0 false [] :=
  seo_score_floor.1 0 0 false [] (le_refl 0)

/-- C9: the engagement score equals the spec formula (per-view rates only
when views > 0, weighted sum, rounded, capped at 100), and the spec's
concrete example evaluates to 7. -/
theorem engagement_score_spec (views clicks shares comments : ℕ) (conversionRate : ℚ)
    (h0 : 0 ≤ conversionRate) (h1 : conversionRate ≤ 1) :
    calculateEngagementScore (some views) (some clicks) (some shares) (some comments)
        (some conversionRate) =
      specEngagementScore views clicks shares comments conversionRate ∧
    calculateEngagementScore (some 100) (some 10) (some 5) (some 2) (some (1/10)) = 7 := by
  refine ⟨rfl, ?_⟩
  simp only [calculateEngagementScore, Option.getD]
  norm_num [round_eq]

/-- Witness for C9 at the spec's concrete example. -/
theorem engagement_score_spec_witness :
    calculateEngagementScore (some 100) (some 10) (some 5) (some 2) (some (1/10)) =
      specEngagementScore 100 10 5 2 (1/10) ∧
    calculateEngagementScore (some 100) (some 10) (some 5) (some 2) (some (1/10)) = 7 :=
  engagement_score_spec 100 10 5 2 (1/10) (by norm_num) (by norm_num)

theorem calculateKeywordDensity_le_three (content keyword : String) :
    calculateKeywordDensity content keyword ≤ 3 := by
  simp only [calculateKeywordDensity]
  exact min_le_right _ _

theorem generateRecommendations_length_le (kd rs : ℚ) (hs : Bool) (content : String)
    (h3 : kd ≤ 3) : (generateRecommendations kd rs hs content).length ≤ 4 := by
  have hnot : ¬ (3 < kd) := not_lt.mpr h3
  simp only [generateRecommendations, hnot, if_false, List.length_append]
  split_ifs <;> simp

theorem kd_eval_hi_kw : calculateKeywordDensity (r"hi") (r"kw") = 0 := by
  have h1 : (jsSplit Char.isWhitespace (strToLower (r"hi"))).filter
      (fun w => strIncludes w (strToLower (r"kw"))) = [] := by decide
  have h2 : (jsSplit Char.isWhitespace (strToLower (r"hi"))).length = 1 := by decide
  simp only [calculateKeywordDensity, h1, h2, List.length_nil]
  norm_num

theorem rs_eval_hi : calculateReadabilityScore (r"hi") = 100 := by
  have h1 : ((jsSplit isSentenceSep (r"hi")).filter
      (fun s => !(trimChars s.data).isEmpty)).length = 1 := by decide
  have h2 : (jsSplit Char.isWhitespace (r"hi")).length = 1 := by decide
  have h3 : countSyllables (r"hi") = 1 := by decide
  simp only [calculateReadabilityScore, h1, h2, h3]
  norm_num

/-- C2 (counterexample): when the external call succeeds, its
recommendations are prepended without truncation, so the merged list can
exceed 5 — here the provider's own 3 mock recommendations plus 3 local
ones give 6. -/
theorem analyzeContent_recommendations_over_five :
    (analyzeContent (r"hi") (r"kw") (r"t") (some mockExternalAnalysis)).recommendations.length = 6 ∧
    ¬ ((analyzeContent (r"hi") (r"kw") (r"t") (some mockExternalAnalysis)).recommendations.length ≤ 5) := by
  have hh : checkHeadingStructure (r"hi") = false := by decide
  have hw : (jsSplit Char.isWhitespace (r"hi")).length = 1 := by decide
  have hrec : (analyzeContent (r"hi") (r"kw") (r"t") (some mockExternalAnalysis)).recommendations =
      mockExternalAnalysis.recommendations ++
        generateRecommendations (calculateKeywordDensity (r"hi") (r"kw"))
          (calculateReadabilityScore (r"hi")) (checkHeadingStructure (r"hi")) (r"hi") := rfl
  have hlen : (analyzeContent (r"hi") (r"kw") (r"t") (some mockExternalAnalysis)).recommendations.length = 6 := by
    rw [hrec, kd_eval_hi_kw, rs_eval_hi, hh]
    simp only [generateRecommendations, hw, mockExternalAnalysis]
    norm_num
  exact ⟨hlen, by rw [hlen]; decide⟩

/-- C2 (amended): on the fallback path the recommendation list has length
at most 4 (hence at most 5, the density-stuffing rule being unreachable
under the 3.0 cap); on the external-success path its length is exactly the
external count plus the local count — there is no truncation to 5. -/
theorem analyzeContent_recommendations_length :
    ∀ (content keyword title : String),
      (analyzeContent content keyword title none).recommendations.length ≤ 5 ∧
      ∀ ext : ExternalAnalysis,
        (analyzeContent content keyword title (some ext)).recommendations.length =
          ext.recommendations.length + (analyzeContent content keyword title none).recommendations.length := by
  intro content keyword title
  have hrec : (analyzeContent content keyword title none).recommendations =
      generateRecommendations (calculateKeywordDensity content keyword)
        (calculateReadabilityScore content) (checkHeadingStructure content) content := rfl
  constructor
  · rw [hrec]
    exact le_trans (generateRecommendations_length_le _ _ _ _
      (calculateKeywordDensity_le_three content keyword)) (by norm_num)
  · intro ext
    have hrec2 : (analyzeContent content keyword title (some ext)).recommendations =
        ext.recommendations ++ generateRecommendations (calculateKeywordDensity content keyword)
          (calculateReadabilityScore content) (checkHeadingStructure content) content := rfl
    rw [hrec2, hrec, List.length_append]

theorem patAt_cons_succ (x : Char) (cs : List Char) (i : ℕ) :
    patAt (x :: cs) (i + 1) ↔ patAt cs i := by
  simp [patAt, List.drop_succ_cons]

theorem patAt_length {cs : List Char} {i : ℕ} (h : patAt cs i) : 3 ≤ cs.length := by
  obtain ⟨c, rest, hd, _⟩ := h
  have h1 : (cs.drop i).length = cs.length - i := List.length_drop i cs
  rw [hd] at h1
  simp only [List.length_cons] at h1
  omega

theorem countH2_pos_iff (cs : List Char) : 1 ≤ countH2 cs ↔ ∃ i, patAt cs i := by
  induction cs using countH2.induct with
  | case1 a b c rest h ih =>
    simp only [Bool.and_eq_true, beq_iff_eq] at h
    obtain ⟨⟨ha, hb⟩, hc⟩ := h
    subst ha hb
    constructor
    · intro _
      exact ⟨0, c, rest, rfl, hc⟩
    · intro _
      have : countH2 ('#' :: '#' :: c :: rest) = countH2 rest + 1 := by
        simp [countH2, hc]
      omega
  | case2 a b c rest h ih =>
    have heq : countH2 (a :: b :: c :: rest) = countH2 (b :: c :: rest) := by
      simp [countH2, h]
    rw [heq, ih]
    constructor
    · rintro ⟨i, hp⟩
      exact ⟨i + 1, (patAt_cons_succ a (b :: c :: rest) i).mpr hp⟩
    · rintro ⟨i, hp⟩
      match i with
      | 0 =>
        obtain ⟨c2, r2, hd, hws⟩ := hp
        simp only [List.drop] at hd
        injection hd with h1 hd
        injection hd with h2 hd
        injection hd with h3 hd
        subst h1 h2 h3
        simp [hws] at h
      | i + 1 =>
        exact ⟨i, (patAt_cons_succ a (b :: c :: rest) i).mp hp⟩
  | case3 x h =>
    match x, h with
    | [], _ => simp [countH2]; intro i hp; exact absurd (patAt_length hp) (by simp)
    | [a], _ => simp [countH2]; intro i hp; exact absurd (patAt_length hp) (by simp)
    | [a, b], _ => simp [countH2]; intro i hp; exact absurd (patAt_length hp) (by simp)
    | a :: b :: c :: rest, h => exact absurd rfl (h a b c rest)

theorem patAt_cons3 (a b c : Char) (cs : List Char) (i : ℕ) :
    patAt (a :: b :: c :: cs) (i + 3) ↔ patAt cs i := by
  constructor
  · intro h
    have h1 := (patAt_cons_succ a (b :: c :: cs) (i + 2)).mp h
    have h2 := (patAt_cons_succ b (c :: cs) (i + 1)).mp h1
    exact (patAt_cons_succ c cs i).mp h2
  · intro h
    exact (patAt_cons_succ a (b :: c :: cs) (i + 2)).mpr
      ((patAt_cons_succ b (c :: cs) (i + 1)).mpr ((patAt_cons_succ c cs i).mpr h))

theorem countH2_two_iff (cs : List Char) :
    2 ≤ countH2 cs ↔ ∃ i j, i + 3 ≤ j ∧ patAt cs i ∧ patAt cs j := by
  induction cs using countH2.induct with
  | case1 a b c rest h ih =>
    simp only [Bool.and_eq_true, beq_iff_eq] at h
    obtain ⟨⟨ha, hb⟩, hc⟩ := h
    subst ha hb
    have heq : countH2 ('#' :: '#' :: c :: rest) = countH2 rest + 1 := by
      simp [countH2, hc]
    rw [heq]
    constructor
    · intro h2
      have h1 : 1 ≤ countH2 rest := by omega
      obtain ⟨i, hp⟩ := (countH2_pos_iff rest).mp h1
      exact ⟨0, i + 3, by omega, ⟨c, rest, rfl, hc⟩,
        (patAt_cons3 '#' '#' c rest i).mpr hp⟩
    · rintro ⟨i, j, hij, hpi, hpj⟩
      obtain ⟨j', rfl⟩ : ∃ j', j = j' + 3 := ⟨j - 3, by omega⟩
      have hpr : patAt rest j' := (patAt_cons3 '#' '#' c rest j').mp hpj
      have h1 : 1 ≤ countH2 rest := (countH2_pos_iff rest).mpr ⟨j', hpr⟩
      omega
  | case2 a b c rest h ih =>
    have heq : countH2 (a :: b :: c :: rest) = countH2 (b :: c :: rest) := by
      simp [countH2, h]
    rw [heq, ih]
    constructor
    · rintro ⟨i, j, hij, hpi, hpj⟩
      exact ⟨i + 1, j + 1, by omega, (patAt_cons_succ a (b :: c :: rest) i).mpr hpi,
        (patAt_cons_succ a (b :: c :: rest) j).mpr hpj⟩
    · rintro ⟨i, j, hij, hpi, hpj⟩
      match i, hij, hpi with
      | 0, hij, hpi =>
        obtain ⟨c2, r2, hd, hws⟩ := hpi
        simp only [List.drop] at hd
        injection hd with h1 hd
        injection hd with h2 hd
        injection hd with h3 hd
        subst h1 h2 h3
        simp [hws] at h
      | i + 1, hij, hpi =>
        obtain ⟨j', rfl⟩ : ∃ j', j = j' + 1 := ⟨j - 1, by omega⟩
        exact ⟨i, j', by omega, (patAt_cons_succ a (b :: c :: rest) i).mp hpi,
          (patAt_cons_succ a (b :: c :: rest) j').mp hpj⟩
  | case3 x h =>
    match x, h with
    | [], _ =>
      constructor
      · intro h2
        exact absurd h2 (by simp [countH2])
      · rintro ⟨i, j, hij, hpi, hpj⟩
        exact absurd (patAt_length hpi) (by simp)
    | [a], _ =>
      constructor
      · intro h2
        exact absurd h2 (by simp [countH2])
      · rintro ⟨i, j, hij, hpi, hpj⟩
        exact absurd (patAt_length hpi) (by simp)
    | [a, b], _ =>
      constructor
      · intro h2
        exact absurd h2 (by simp [countH2])
      · rintro ⟨i, j, hij, hpi, hpj⟩
        exact absurd (patAt_length hpi) (by simp)
    | a :: b :: c :: rest, h => exact absurd rfl (h a b c rest)

/-- C8 (counterexample): two mid-line marker-pair occurrences make the code
return true although the text contains no second-level heading line at all
(no line starts with exactly two markers followed by a space), so the
line-based reading of the claim is false in both directions of the iff. -/
theorem checkHeadingStructure_counterexample :
    checkHeadingStructure (r"a ## b ## c") = true ∧
    specHeadingLineCount (r"a ## b ## c") = 0 ∧
    ¬ (2 ≤ specHeadingLineCount (r"a ## b ## c")) := by
  refine ⟨by decide, by decide, by decide⟩

/-- C8 (amended): `hasHeadingStructure` is true iff the text contains two
disjoint marker-pair-plus-whitespace matches anywhere in the text — not
necessarily at line starts, any whitespace (not only a space) after the
pair, and a deeper heading such as one with three markers also contains a
match; fewer than two matches (in particular a single heading) yield
false. -/
theorem checkHeadingStructure_iff (s : String) :
    checkHeadingStructure s = true ↔
      ∃ i j, i + 3 ≤ j ∧ patAt s.data i ∧ patAt s.data j := by
  unfold checkHeadingStructure
  rw [decide_eq_true_iff]
  exact countH2_two_iff s.data

theorem mem_insertRanked (x a : RankedEntry) (l : List RankedEntry) :
    a ∈ insertRanked x l ↔ a = x ∨ a ∈ l := by
  induction l with
  | nil => simp [insertRanked]
  | cons y ys ih =>
    simp only [insertRanked]
    split
    · simp only [List.mem_cons, ih]
      tauto
    · simp only [List.mem_cons]

theorem insertRanked_pairwise (x : RankedEntry) (l : List RankedEntry)
    (hl : l.Pairwise rankBefore)
    (hidx : ∀ y ∈ l, x.2.2 = y.2.2 → x.1 < y.1) :
    (insertRanked x l).Pairwise rankBefore := by
  induction l with
  | nil => simp [insertRanked]
  | cons y ys ih =>
    rw [List.pairwise_cons] at hl
    obtain ⟨hy, hys⟩ := hl
    simp only [insertRanked]
    split_ifs with hxy
    · rw [List.pairwise_cons]
      constructor
      · intro z hz
        rcases (mem_insertRanked x z ys).mp hz with rfl | hz2
        · exact Or.inl hxy
        · exact hy z hz2
      · exact ih hys (fun z hz he => hidx z (List.mem_cons_of_mem y hz) he)
    · push_neg at hxy
      rw [List.pairwise_cons]
      refine ⟨?_, List.pairwise_cons.mpr ⟨hy, hys⟩⟩
      intro z hz
      rcases List.mem_cons.mp hz with rfl | hz2
      · rcases lt_or_eq_of_le hxy with hlt | heq
        · exact Or.inl hlt
        · exact Or.inr ⟨heq.symm, hidx z (List.mem_cons_self z ys) heq.symm⟩
      · rcases hy z hz2 with hzy | ⟨heq2, _⟩
        · exact Or.inl (lt_of_lt_of_le hzy hxy)
        · rcases lt_or_eq_of_le hxy with hlt | heq
          · exact Or.inl (heq2 ▸ hlt)
          · have hxz : x.2.2 = z.2.2 := heq.symm.trans heq2
            exact Or.inr ⟨hxz, hidx z (List.mem_cons_of_mem y hz2) hxz⟩

theorem mem_sortRanked (a : RankedEntry) (l : List RankedEntry) :
    a ∈ sortRanked l ↔ a ∈ l := by
  induction l with
  | nil => simp [sortRanked]
  | cons x xs ih => simp [sortRanked, mem_insertRanked, ih]

theorem sortRanked_pairwise (l : List RankedEntry)
    (h : l.Pairwise (fun a b => a.1 < b.1)) : (sortRanked l).Pairwise rankBefore := by
  induction l with
  | nil => simp [sortRanked]
  | cons x xs ih =>
    rw [List.pairwise_cons] at h
    obtain ⟨hx, hxs⟩ := h
    exact insertRanked_pairwise x (sortRanked xs) (ih hxs)
      (fun y hy _ => hx y ((mem_sortRanked y xs).mp hy))

theorem mem_enumFrom_le {α : Type} {l : List α} {n : ℕ} {p : ℕ × α}
    (h : p ∈ l.enumFrom n) : n ≤ p.1 := by
  induction l generalizing n with
  | nil => simp [List.enumFrom] at h
  | cons x xs ih =>
    simp only [List.enumFrom] at h
    rcases List.mem_cons.mp h with rfl | h2
    · exact le_refl n
    · exact le_trans (Nat.le_succ n) (ih h2)

theorem pairwise_enumFrom {α : Type} (l : List α) (n : ℕ) :
    (l.enumFrom n).Pairwise (fun a b => a.1 < b.1) := by
  induction l generalizing n with
  | nil => simp [List.enumFrom]
  | cons x xs ih =>
    simp only [List.enumFrom]
    rw [List.pairwise_cons]
    exact ⟨fun p hp => lt_of_lt_of_le (Nat.lt_succ_self n) (mem_enumFrom_le hp), ih (n + 1)⟩

theorem buildKeywordMap_example :
    buildKeywordMap [⟨some (r"a"), some 10⟩, ⟨some (r"a,b"), some 5⟩] =
      [(r"a", 15), (r"b", 5)] := by
  have hpk1 : postKeywords ⟨some (r"a"), some 10⟩ = some [r"a"] := by decide
  have hpk2 : postKeywords ⟨some (r"a,b"), some 5⟩ = some [r"a", r"b"] := by decide
  simp only [buildKeywordMap, List.foldl_cons, List.foldl_nil, hpk1, hpk2]
  norm_num [engagementWeight, addWeight]
  decide

/-- C4 (counterexample): a stored engagement score of 0 is falsy in the
source (`|| 1`), so the code weighs such a post as 1, not as the claimed
stored value: with posts a(score 0) and b(score 1) the code ties both
keywords at weight 1 and keeps first-seen order [a, b], although the
claimed weights (0 for a, 1 for b) would demand b before a — the output is
not sorted descending by the claimed engagement-weighted totals. -/
theorem rank_order_counterexample :
    getTopKeywordsFromHistory (some [⟨some (r"a"), some 0⟩, ⟨some (r"b"), some 1⟩]) =
      [r"a", r"b"] ∧
    lookupWeight (specKeywordTotals [⟨some (r"a"), some 0⟩, ⟨some (r"b"), some 1⟩]) (r"a") <
      lookupWeight (specKeywordTotals [⟨some (r"a"), some 0⟩, ⟨some (r"b"), some 1⟩]) (r"b") := by
  have hpk1 : postKeywords ⟨some (r"a"), some 0⟩ = some [r"a"] := by decide
  have hpk2 : postKeywords ⟨some (r"b"), some 1⟩ = some [r"b"] := by decide
  have hmap : buildKeywordMap [⟨some (r"a"), some 0⟩, ⟨some (r"b"), some 1⟩] =
      [(r"a", 1), (r"b", 1)] := by
    simp only [buildKeywordMap, List.foldl_cons, List.foldl_nil, hpk1, hpk2]
    norm_num [engagementWeight, addWeight]
    decide
  have hspec : specKeywordTotals [⟨some (r"a"), some 0⟩, ⟨some (r"b"), some 1⟩] =
      [(r"a", 0), (r"b", 1)] := by
    simp only [specKeywordTotals, List.foldl_cons, List.foldl_nil, hpk1, hpk2]
    norm_num [specEngagementWeight, addWeight]
    decide
  constructor
  · simp only [getTopKeywordsFromHistory, rankedEntries, hmap]
    norm_num [List.enum, List.enumFrom, sortRanked, insertRanked]
  · rw [hspec]
    norm_num [lookupWeight, List.find?]
    decide

/-- C4 (amended): the ranked entries are always sorted descending by the
code's aggregate weights — each post contributing `engagement_score || 1`,
i.e. 1 also for a stored 0 — with ties in first-seen order; on the claim's
concrete example (scores 10 and 5) the totals are a = 15, b = 5 and the
output order is [a, b]. -/
theorem rank_sorted_descending :
    (∀ posts : List HistoricalPost, (rankedEntries posts).Pairwise rankBefore) ∧
    getTopKeywordsFromHistory (some [⟨some (r"a"), some 10⟩, ⟨some (r"a,b"), some 5⟩]) =
      [r"a", r"b"] ∧
    lookupWeight (buildKeywordMap [⟨some (r"a"), some 10⟩, ⟨some (r"a,b"), some 5⟩]) (r"a") = 15 ∧
    lookupWeight (buildKeywordMap [⟨some (r"a"), some 10⟩, ⟨some (r"a,b"), some 5⟩]) (r"b") = 5 := by
  refine ⟨?_, ?_, ?_, ?_⟩
  · intro posts
    exact sortRanked_pairwise _ (pairwise_enumFrom (buildKeywordMap posts) 0)
  · simp only [getTopKeywordsFromHistory, rankedEntries, buildKeywordMap_example]
    norm_num [List.enum, List.enumFrom, sortRanked, insertRanked]
  · rw [buildKeywordMap_example]
    norm_num [lookupWeight, List.find?]
  · rw [buildKeywordMap_example]
    norm_num [lookupWeight, List.find?]
    decide

theorem daysInMonth_ge_28 (year month : ℕ) (h1 : 1 ≤ month) (h2 : month ≤ 12) :
    28 ≤ daysInMonth year month := by
  interval_cases month <;> simp only [daysInMonth] <;>
    first
      | omega
      | (split <;> omega)

theorem exists_dow2 (year month : ℕ) :
    ∃ d, 1 ≤ d ∧ d ≤ 7 ∧ dayOfWeek year month d = 2 := by
  simp only [dayOfWeek]
  refine ⟨(9 - (daysBeforeYear year + daysBeforeMonth year month + 6) % 7) % 7 + 1,
    by omega, by omega, by omega⟩

theorem optimalDays_ne_nil (month year : ℕ) (h1 : 1 ≤ month) (h2 : month ≤ 12) :
    getOptimalPublishingDays month year ≠ [] := by
  obtain ⟨d, hd1, hd7, hdw⟩ := exists_dow2 year month
  apply List.ne_nil_of_mem (a := d)
  apply List.mem_filter.mpr
  constructor
  · apply List.mem_range'_1.mpr
    have h28 := daysInMonth_ge_28 year month h1 h2
    omega
  · simp [hdw]

theorem mem_optimalDays {month year d : ℕ} (h : d ∈ getOptimalPublishingDays month year) :
    1 ≤ d ∧ d ≤ daysInMonth year month ∧
    2 ≤ dayOfWeek year month d ∧ dayOfWeek year month d ≤ 4 := by
  unfold getOptimalPublishingDays at h
  obtain ⟨hmem, hcond⟩ := List.mem_filter.mp h
  obtain ⟨hs, hlt⟩ := List.mem_range'_1.mp hmem
  simp only [Bool.and_eq_true, decide_eq_true_eq] at hcond
  exact ⟨hs, by omega, hcond.1, hcond.2⟩

theorem generateContentIdeas_platforms (keywords : List String) :
    ∀ idea ∈ generateContentIdeas keywords,
      idea.platforms = some [Platform.blog, Platform.linkedin] := by
  intro idea h
  obtain ⟨p, hp, rfl⟩ := List.mem_map.mp h
  rfl

theorem generateContentIdeas_length (keywords : List String) :
    (generateContentIdeas keywords).length = keywords.length := by
  simp [generateContentIdeas]

theorem itemsForIdea_eq (idea : ContentIdea) (pd : Option ScheduleDate)
    (h : idea.platforms = some [Platform.blog, Platform.linkedin]) :
    itemsForIdea idea pd =
      [{ title := idea.title.getD (r""), description := idea.description.getD (r""),
         keywords := [idea.keyword.getD (r"")], publishDate := pd,
         platform := Platform.blog, status := ContentStatus.scheduled },
       { title := idea.title.getD (r""), description := idea.description.getD (r""),
         keywords := [idea.keyword.getD (r"")], publishDate := pd,
         platform := Platform.linkedin, status := ContentStatus.scheduled }] := by
  simp [itemsForIdea, h]

theorem mem_enumFrom_snd {α : Type} {l : List α} {n : ℕ} {p : ℕ × α}
    (h : p ∈ l.enumFrom n) : p.2 ∈ l := by
  induction l generalizing n with
  | nil => simp [List.enumFrom] at h
  | cons x xs ih =>
    simp only [List.enumFrom] at h
    rcases List.mem_cons.mp h with rfl | h2
    · exact List.mem_cons_self x xs
    · exact List.mem_cons_of_mem x (ih h2)

theorem scheduleFlat_length (l : List ContentIdea) (g : ℕ → Option ScheduleDate) :
    ∀ s, (∀ idea ∈ l, idea.platforms = some [Platform.blog, Platform.linkedin]) →
      ((l.enumFrom s).flatMap (fun p => itemsForIdea p.2 (g p.1))).length = 2 * l.length := by
  induction l with
  | nil =>
    intro s _
    simp [List.enumFrom]
  | cons idea rest ih =>
    intro s hplat
    simp only [List.enumFrom, List.flatMap_cons, List.length_append]
    rw [itemsForIdea_eq idea (g s) (hplat idea (List.mem_cons_self idea rest)),
      ih (s + 1) (fun i hi => hplat i (List.mem_cons_of_mem idea hi))]
    simp only [List.length_cons, List.length_nil]
    omega

theorem scheduleFlat_get_publishDate (l : List ContentIdea) (g : ℕ → Option ScheduleDate) :
    ∀ s k (hk : k < ((l.enumFrom s).flatMap (fun p => itemsForIdea p.2 (g p.1))).length),
      (∀ idea ∈ l, idea.platforms = some [Platform.blog, Platform.linkedin]) →
      (((l.enumFrom s).flatMap (fun p => itemsForIdea p.2 (g p.1))).get ⟨k, hk⟩).publishDate =
        g (s + k / 2) := by
  induction l with
  | nil =>
    intro s k hk _
    simp [List.enumFrom] at hk
  | cons idea rest ih =>
    intro s k hk hplat
    have hpl := hplat idea (List.mem_cons_self idea rest)
    have hrest : ∀ i ∈ rest, i.platforms = some [Platform.blog, Platform.linkedin] :=
      fun i hi => hplat i (List.mem_cons_of_mem idea hi)
    simp only [List.enumFrom, List.flatMap_cons, itemsForIdea_eq idea (g s) hpl,
      List.cons_append, List.nil_append, List.get_eq_getElem] at hk ⊢
    match k with
    | 0 =>
      simp only [List.getElem_cons_zero]
      norm_num
    | 1 =>
      simp only [List.getElem_cons_succ, List.getElem_cons_zero]
      norm_num
    | k + 2 =>
      simp only [List.getElem_cons_succ]
      have heq : s + 1 + k / 2 = s + (k + 2) / 2 := by omega
      rw [← heq]
      have h2 := ih (s + 1) k (by
        simp only [List.length_cons] at hk
        omega) hrest
      simpa [List.get_eq_getElem] using h2

/-- C5: for every non-empty keyword list and valid month/year, the schedule
contains exactly 2 × numberOfKeywords items (one per platform blog/linkedin
for each idea), every item is `scheduled`, and every publish date is a
Tuesday, Wednesday or Thursday (weekday 2–4) of the target month. -/
theorem schedule_shape (keywords : List String) (month year : ℕ)
    (hne : keywords ≠ []) (h1 : 1 ≤ month) (h2 : month ≤ 12) (hy : 100 ≤ year) :
    (createPublishingSchedule (generateContentIdeas keywords) month year).length =
      2 * keywords.length ∧
    ∀ item ∈ createPublishingSchedule (generateContentIdeas keywords) month year,
      item.status = ContentStatus.scheduled ∧
      (item.platform = Platform.blog ∨ item.platform = Platform.linkedin) ∧
      ∃ d ∈ getOptimalPublishingDays month year,
        item.publishDate = some ⟨year, month, d⟩ ∧
        1 ≤ d ∧ d ≤ daysInMonth year month ∧
        2 ≤ dayOfWeek year month d ∧ dayOfWeek year month d ≤ 4 := by
  have hplat := generateContentIdeas_platforms keywords
  constructor
  · have h := scheduleFlat_length (generateContentIdeas keywords)
      (fun i => (((getOptimalPublishingDays month year).get?
          (i % (getOptimalPublishingDays month year).length)).map
        (fun d => (⟨year, month, d⟩ : ScheduleDate)))) 0 hplat
    rw [generateContentIdeas_length] at h
    exact h
  · intro item hitem
    have hmem : item ∈ (generateContentIdeas keywords).enum.flatMap (fun p =>
        itemsForIdea p.2 (((getOptimalPublishingDays month year).get?
            (p.1 % (getOptimalPublishingDays month year).length)).map
          (fun d => (⟨year, month, d⟩ : ScheduleDate)))) := hitem
    obtain ⟨p, hp, hin⟩ := List.mem_flatMap.mp hmem
    have hpl := hplat p.2 (mem_enumFrom_snd hp)
    rw [itemsForIdea_eq p.2 _ hpl] at hin
    have hlenpos : 0 < (getOptimalPublishingDays month year).length :=
      List.length_pos.mpr (optimalDays_ne_nil month year h1 h2)
    have hidx : p.1 % (getOptimalPublishingDays month year).length <
        (getOptimalPublishingDays month year).length := Nat.mod_lt _ hlenpos
    have hget : (getOptimalPublishingDays month year).get?
        (p.1 % (getOptimalPublishingDays month year).length) =
        some ((getOptimalPublishingDays month year).get ⟨_, hidx⟩) :=
      List.get?_eq_get hidx
    have hdmem := List.get_mem (getOptimalPublishingDays month year) _ hidx
    obtain ⟨hd1, hd2, hd3, hd4⟩ := mem_optimalDays hdmem
    rcases List.mem_cons.mp hin with rfl | hin2
    · refine ⟨rfl, Or.inl rfl,
        (getOptimalPublishingDays month year).get ⟨_, hidx⟩, hdmem, ?_, hd1, hd2, hd3, hd4⟩
      simp [hget]
    · rcases List.mem_cons.mp hin2 with rfl | hin3
      · refine ⟨rfl, Or.inr rfl,
          (getOptimalPublishingDays month year).get ⟨_, hidx⟩, hdmem, ?_, hd1, hd2, hd3, hd4⟩
        simp [hget]
      · exact absurd hin3 (List.not_mem_nil item)

/-- Witness for C5 at a concrete input (January 2025, one keyword). -/
theorem schedule_shape_witness :
    (createPublishingSchedule (generateContentIdeas [r"a"]) 1 2025).length =
      2 * ([r"a"] : List String).length ∧
    ∀ item ∈ createPublishingSchedule (generateContentIdeas [r"a"]) 1 2025,
      item.status = ContentStatus.scheduled ∧
      (item.platform = Platform.blog ∨ item.platform = Platform.linkedin) ∧
      ∃ d ∈ getOptimalPublishingDays 1 2025,
        item.publishDate = some ⟨2025, 1, d⟩ ∧
        1 ≤ d ∧ d ≤ daysInMonth 2025 1 ∧
        2 ≤ dayOfWeek 2025 1 d ∧ dayOfWeek 2025 1 d ≤ 4 :=
  schedule_shape [r"a"] 1 2025 (by decide) (by decide) (by decide) (by decide)

/-- C6 (counterexample): at flattened position 1 (the linkedin copy of the
first idea) the publish date is day 1 of January 2025 — the same day as the
blog copy at position 0 — whereas the claimed rule
`optimalDays[index mod length]` with the flattened index 1 would give day 2:
the date index in the source is the idea index, computed once per idea, so
the two platform copies never step through successive optimal days. -/
theorem schedule_date_flat_index_counterexample :
    ((createPublishingSchedule (generateContentIdeas [r"k1", r"k2"]) 1 2025).map
        (fun item => item.publishDate)).get? 1 = some (some ⟨2025, 1, 1⟩) ∧
    (getOptimalPublishingDays 1 2025).get?
        (1 % (getOptimalPublishingDays 1 2025).length) = some 2 ∧
    ((createPublishingSchedule (generateContentIdeas [r"k1", r"k2"]) 1 2025).map
        (fun item => item.publishDate)).get? 1 ≠
      ((getOptimalPublishingDays 1 2025).get?
          (1 % (getOptimalPublishingDays 1 2025).length)).map
        (fun d => some (⟨2025, 1, d⟩ : ScheduleDate)) := by
  refine ⟨by decide, by decide, by decide⟩

/-- C6 (amended): the publish date of the item at flattened position `k` is
`optimalDays[(k / 2) mod length(optimalDays)]` — the index that cycles
through the optimal-day list is the position of the item's *idea* in the
idea list (`k / 2`, there being exactly two platform copies per idea), so
both copies of one idea share the same optimal day. -/
theorem schedule_date_per_idea (keywords : List String) (month year k : ℕ)
    (hk : k < (createPublishingSchedule (generateContentIdeas keywords) month year).length) :
    ((createPublishingSchedule (generateContentIdeas keywords) month year).get
        ⟨k, hk⟩).publishDate =
      ((getOptimalPublishingDays month year).get?
          ((k / 2) % (getOptimalPublishingDays month year).length)).map
        (fun d => ⟨year, month, d⟩) := by
  have h := scheduleFlat_get_publishDate (generateContentIdeas keywords)
    (fun i => (((getOptimalPublishingDays month year).get?
        (i % (getOptimalPublishingDays month year).length)).map
      (fun d => (⟨year, month, d⟩ : ScheduleDate)))) 0 k hk
    (generateContentIdeas_platforms keywords)
  simp only [createPublishingSchedule, List.enum]
  simpa using h

/-- Witness for C6 at a concrete input (position 1, January 2025). -/
theorem schedule_date_per_idea_witness :
    ((createPublishingSchedule (generateContentIdeas [r"k1", r"k2"]) 1 2025).get
        ⟨1, by decide⟩).publishDate =
      ((getOptimalPublishingDays 1 2025).get?
          ((1 / 2) % (getOptimalPublishingDays 1 2025).length)).map
        (fun d => ⟨2025, 1, d⟩) :=
  schedule_date_per_idea [r"k1", r"k2"] 1 2025 1 (by decide)
